import Mathlib

/-!
Verification of the Normal-NeuS training/evaluation runner
(exp_runner_psnerf.py) and the DiligentMV data loader
(models/dataset_diligentMV.py).

Numeric tensor values are embedded as exact rationals (or reals where
transcendental functions occur); tensors become lists; fallible code
returns Option.  Each section names the source lines it embeds.
-/

open Quaternion

/- ### Strings: Python-faithful lexicographic order and int() parsing

Python compares strings by Unicode code point, and list.sort() sorts
lexicographically.  String.le in Lean does not reduce in the kernel, so
we implement the same order on the underlying character lists. -/

/-- Lexicographic strict order on character lists by code point,
as Python compares strings. -/
def charListLt : List Char → List Char → Bool
  | _, [] => false
  | [], _ :: _ => true
  | a :: as, b :: bs => decide (a < b) || (a == b && charListLt as bs)

/-- Python string comparison a <= b. -/
def strLe (a b : String) : Bool := charListLt a.data b.data || a == b

/-- Insert into a sorted list, keeping order (Python list.sort is a
stable comparison sort; on distinct keys any comparison sort agrees). -/
def insertSorted (s : String) : List String → List String
  | [] => [s]
  | t :: ts => if strLe s t then s :: t :: ts else t :: insertSorted s ts

/-- Python sorted(...) on strings. -/
def sortStrings (l : List String) : List String := l.foldr insertSorted []

/-- Parse a nonempty all-digit string as Python int() does
(signs and whitespace do not occur in checkpoint file names). -/
def parseNatAux : List Char → Nat → Option Nat
  | [], acc => some acc
  | c :: cs, acc =>
    if c.isDigit then parseNatAux cs (acc * 10 + (c.toNat - 48)) else none

/-- Python int(s) for the digit strings occurring here; none models a
raised ValueError. -/
def parseNat (s : String) : Option Nat :=
  match s.data with
  | [] => none
  | _ :: _ => parseNatAux s.data 0

/- ### Checkpoint file names (exp_runner_psnerf.py lines 329-340)

save_checkpoint writes to 'ckpt_' + the iteration zero-padded to six
digits + '.pth'. -/

/-- Python format spec 0>6d: left-pad the decimal digits with zeros to
width six. -/
def zeroPad6 (n : Nat) : String :=
  let s := toString n
  String.mk (List.replicate (6 - s.length) '0') ++ s

/-- The file name save_checkpoint creates at iteration n (line 340). -/
def ckptFileName (n : Nat) : String := "ckpt_" ++ zeroPad6 n ++ ".pth"

/- ### Checkpoint save / load round trip (lines 318-340)

The four networks hold parameter vectors; the optimizer holds its own
state; parameters are embedded as rational lists. -/

/-- The dictionary torch.save writes (lines 330-337), keyed exactly as in
save_checkpoint. -/
structure Checkpoint where
  nerf : List ℚ
  sdf_network_fine : List ℚ
  variance_network_fine : List ℚ
  color_network_fine : List ℚ
  optimizer : List ℚ
  iter_step : Nat
  deriving DecidableEq

/-- The runner fields that save/load touch: the four networks, the
optimizer state and the iteration counter. -/
structure RunnerState where
  nerf_outside : List ℚ
  sdf_network : List ℚ
  deviation_network : List ℚ
  color_network : List ℚ
  optimizer : List ℚ
  iter_step : Nat
  deriving DecidableEq

/-- save_checkpoint (lines 329-340): the serialized dictionary together
with the file name it is written to. -/
def save_checkpoint (r : RunnerState) : Checkpoint × String :=
  (⟨r.nerf_outside, r.sdf_network, r.deviation_network, r.color_network,
    r.optimizer, r.iter_step⟩,
   ckptFileName r.iter_step)

/-- load_checkpoint (lines 318-325): overwrite the four networks, the
optimizer state and the iteration counter from the dictionary. -/
def load_checkpoint (r : RunnerState) (c : Checkpoint) : RunnerState :=
  { r with
    nerf_outside := c.nerf
    sdf_network := c.sdf_network_fine
    deviation_network := c.variance_network_fine
    color_network := c.color_network_fine
    optimizer := c.optimizer
    iter_step := c.iter_step }

/- ### Checkpoint directory scan in the constructor (lines 86-108) -/

/-- int(model_name[5:-4]) (line 92 and line 101). -/
def ckptIterOf (name : String) : Option Nat := parseNat ((name.drop 5).dropRight 4)

/-- The filter of lines 91-93 / 100-102: keep names ending in pth whose
parsed iteration is at most end_iter. -/
def ckptKeep (endIter : Nat) (name : String) : Bool :=
  name.takeRight 3 == "pth" &&
    (match ckptIterOf name with
     | some k => decide (k ≤ endIter)
     | none => false)

/-- Lines 89-95 / 98-104: list the directory, filter, sort, take the last
entry.  none models the IndexError a [-1] access raises on an empty
list. -/
def scanCheckpoints (files : List String) (endIter : Nat) : Option String :=
  (sortStrings (files.filter (ckptKeep endIter))).getLast?

/-- Lines 86-108 of Runner.__init__: the checkpoint name that gets
loaded, none when no load happens.  The two if-blocks assign the same
scan result to latest_model_name, so their union decides the load. -/
def runnerInitCheckpoint (files : List String) (endIter : Nat)
    (is_continue : Bool) (checkpoint : Bool) : Option String :=
  let latest1 : Option String :=
    if checkpoint then scanCheckpoints files endIter else none
  if is_continue then scanCheckpoints files endIter else latest1

/-- The command-line arguments of lines 583-592 that matter to
checkpoint restoration. -/
structure CLIArgs where
  is_continue : Bool
  checkpoint : Int
  deriving DecidableEq

/-- Line 595: runner = Runner(args.conf, args.mode, args.case,
args.is_continue).  The Runner constructor signature is
(conf_path, mode, case, is_continue, checkpoint = False): only four
positional arguments are passed, so checkpoint keeps its default False;
args.checkpoint is never forwarded. -/
def mainRunnerCheckpoint (args : CLIArgs) (files : List String)
    (endIter : Nat) : Option String :=
  runnerInitCheckpoint files endIter args.is_continue false

/- ### Ray near/far bounds (dataset_diligentMV.py lines 234-240) -/

/-- A 3-vector of exact rationals. -/
structure V3 where
  x : ℚ
  y : ℚ
  z : ℚ
  deriving DecidableEq

/-- Euclidean dot product. -/
def v3dot (a b : V3) : ℚ := a.x * b.x + a.y * b.y + a.z * b.z

/-- near_far_from_sphere for a single ray (lines 234-240):
a = sum(d*d), b = 2*sum(o*d), mid = 0.5*(-b)/a, returns
(mid - 1, mid + 1). -/
def near_far_from_sphere (o d : V3) : ℚ × ℚ :=
  let a := v3dot d d
  let b := 2 * v3dot o d
  let mid := 0.5 * (-b) / a
  (mid - 1.0, mid + 1.0)

/- ### Training-loop mask divisors (exp_runner_psnerf.py)

Line 145 (train):          mask_sum = mask.sum() + 1e-5
Line 364 (evaluate):       mask_sum = mask.sum() + 1e-5
Line 373 (evaluate PSNR):  ... / (mask_sum * 3.0)
Line 466 (validate_image): ... / (mask_gt.sum() * 3.0)   -- no epsilon -/

/-- mask.sum() + 1e-5 as computed in train (line 145). -/
def train_mask_sum (mask : List ℚ) : ℚ := mask.sum + 1 / 100000

/-- mask.sum() + 1e-5 as computed in evaluate (line 364). -/
def evaluate_mask_sum (mask : List ℚ) : ℚ := mask.sum + 1 / 100000

/-- The PSNR divisor of evaluate (line 373): mask_sum * 3.0, where
mask_sum already carries the 1e-5 epsilon. -/
def evaluate_psnr_divisor (mask : List ℚ) : ℚ := evaluate_mask_sum mask * 3

/-- The PSNR divisor of validate_image (line 466):
mask_gt.sum() * 3.0 with no epsilon. -/
def validate_image_psnr_divisor (mask_gt : List ℚ) : ℚ := mask_gt.sum * 3

/- ### Normal loss (lines 173-183)

normal_error = (surface_points_normal - true_normal) * normal_mask,
row-wise over the batch; normal_mask holds one value per ray
(data column 13), broadcast over the three normal components.
F.l1_loss with default mean reduction averages over all 3*N entries. -/

/-- Row-wise (rendered - ground truth) * mask (line 174). -/
def normal_error (sn tn : List V3) (nm : List ℚ) : List V3 :=
  List.zipWith
    (fun (p : V3 × V3) m =>
      ⟨(p.1.x - p.2.x) * m, (p.1.y - p.2.y) * m, (p.1.z - p.2.z) * m⟩)
    (sn.zip tn) nm

/-- Flatten rows to the component list a torch tensor of shape [N, 3]
reduces over. -/
def flattenV3 (l : List V3) : List ℚ :=
  l.foldr (fun v acc => v.x :: v.y :: v.z :: acc) []

/-- F.l1_loss(x, zeros) with the default mean reduction: the mean of the
absolute values of all entries. -/
def l1_loss_mean (xs : List ℚ) : ℚ := (xs.map (fun q => |q|)).sum / xs.length

/-- Lines 180-183: the guard tests normal_error.shape[0] > 0 (batch
nonempty), and the else branch substitutes the float 0.0. -/
def normal_loss (sn tn : List V3) (nm : List ℚ) : ℚ :=
  let e := normal_error sn tn nm
  if 0 < e.length then l1_loss_mean (flattenV3 e) else 0

/-- Modelled from the claim wording, for comparison with normal_loss:
the mean absolute error restricted to the rays selected by the
normal-validity mask (zero when no ray is selected). -/
def restrictedNormalMAE (sn tn : List V3) (nm : List ℚ) : ℚ :=
  let rows := (sn.zip tn).zip nm
  let sel := rows.filter (fun p => p.2 ≠ 0)
  if sel.length = 0 then 0
  else
    (sel.map (fun p =>
      |p.1.1.x - p.1.2.x| + |p.1.1.y - p.1.2.y| + |p.1.1.z - p.1.2.z|)).sum
      / (3 * sel.length)

/-- The masked absolute row sums: for mask values in {0, 1} this is the
numerator both of the code loss and of the restricted mean. -/
def maskedAbsSum (sn tn : List V3) (nm : List ℚ) : ℚ :=
  (List.zipWith
    (fun (p : V3 × V3) m =>
      m * (|p.1.x - p.2.x| + |p.1.y - p.2.y| + |p.1.z - p.2.z|))
    (sn.zip tn) nm).sum

/- ### Early stopping on validation checks (lines 120-129 and 222-235)

State per validation check: best_val_metric (None at first), the
iteration of the best check, patience_counter, and the early_stop flag.
The tracked metric is the training loss at the validation iteration;
the psnr computed alongside it is recorded but never compared. -/

/-- The mutable state the early-stopping logic carries. -/
structure ESState where
  best : Option ℚ
  best_iter : Nat
  counter : Nat
  early_stop : Bool
  deriving DecidableEq

/-- Lines 120-123: best_val_metric = None, best_val_iter = 0,
early_stop = False (patience_counter is first written inside the
improving branch, which every first check takes since best is None). -/
def esInit : ESState := ⟨none, 0, 0, false⟩

/-- One validation check, lines 226-235.  checkIdx numbers the check;
loss is the training loss at that check; psnr is computed at line 163
but ignored by the decision.  A check on a stopped state does nothing
(line 128 breaks out before the next check). -/
def validationCheck (patience : Nat) (s : ESState) (checkIdx : Nat)
    (loss psnr : ℚ) : ESState :=
  if s.early_stop then s
  else
    match s.best with
    | none => ⟨some loss, checkIdx, 0, false⟩
    | some b =>
      if loss < b then ⟨some loss, checkIdx, 0, false⟩
      else
        let c := s.counter + 1
        ⟨some b, s.best_iter, c, decide (patience ≤ c)⟩

/-- Run the validation checks of a training loop over the given
(loss, psnr) sequence, numbering checks from idx + 1. -/
def runChecksFrom (patience : Nat) (s : ESState) (idx : Nat) :
    List (ℚ × ℚ) → ESState
  | [] => s
  | (l, p) :: rest =>
    runChecksFrom patience (validationCheck patience s (idx + 1) l p) (idx + 1) rest

/-- Run all validation checks from the initial state; checks are
numbered 1, 2, .... -/
def runChecks (patience : Nat) (seq : List (ℚ × ℚ)) : ESState :=
  runChecksFrom patience esInit 0 seq

/- ### Random masks (dataset_diligentMV.py lines 39-47 and 75-76) -/

/-- generate_random_mask (lines 39-47): draws is the flattened
torch.rand(n_images, height, width, 3) tensor of uniform [0,1) samples;
each entry is thresholded independently, strictly above 0.5 giving 1.0
and otherwise 0.0. -/
def generate_random_mask (draws : List ℚ) : List ℚ :=
  draws.map (fun r => if (0.5 : ℚ) < r then 1 else 0)

/-- The two fields lines 75-76 assign. -/
structure MasksInit where
  masks_lis : List String
  masks : List ℚ
  deriving DecidableEq

/-- Lines 75-76: masks_lis = sorted(glob(mask_dir/*.png)) and
masks = generate_random_mask(...); the discovered file list never
feeds the mask tensor. -/
def dataset_masks_init (maskFiles : List String) (draws : List ℚ) : MasksInit :=
  { masks_lis := sortStrings maskFiles
    masks := generate_random_mask draws }

/- ### Dataset construction (dataset_diligentMV.py lines 49-151)

The calibration dictionary maps keys Rc_i / Tc_i to matrices; a missing
key raises KeyError, modelled by none.  Matrix values are abstract:
rotations of type R3, translations of type T3, assembled 4x4 poses of
type M4, with assembly and np.linalg.inv passed as functions. -/

/-- Collect the loop results, propagating a raised KeyError (none). -/
def loopCollect {γ δ : Type} (f : γ → Option δ) : List γ → Option (List δ)
  | [] => some []
  | x :: xs =>
    match f x, loopCollect f xs with
    | some y, some ys => some (y :: ys)
    | _, _ => none

/-- One iteration of the second loop (lines 114-122): read Rc_viewIdx
and Tc_viewIdx and assemble the world-to-camera matrix. -/
def w2cAt {R3 T3 M4 : Type} (Rc : Nat → Option R3) (Tc : Nat → Option T3)
    (assemble : R3 → T3 → M4) (viewIdx : Nat) : Option M4 :=
  match Rc viewIdx, Tc viewIdx with
  | some r, some t => some (assemble r t)
  | _, _ => none

/-- The Dataset fields the claims concern. -/
structure DState (R3 T3 M4 I4 : Type) where
  n_images : Nat
  images : List String
  W2C_list : List M4
  pose_all : List M4
  intrinsics_all : List I4

/-- Lines 63-151 of Dataset.__init__, restricted to the fields above:
n_images counts the discovered image files; the first loop (lines
96-103) reads Rc_1..Rc_n_images into unused lists, failing on a missing
key; the second loop (lines 114-125) always runs view_idx = 1..20 and
builds W2C_list and C2W_list; pose_all = C2W_list (line 144);
intrinsics_all tiles the single intrinsics matrix n_images times
(line 143). -/
def dataset_init {R3 T3 M4 I4 : Type} (imagesList : List String)
    (Rc : Nat → Option R3) (Tc : Nat → Option T3)
    (assemble : R3 → T3 → M4) (minv : M4 → M4) (intrinsics : I4) :
    Option (DState R3 T3 M4 I4) :=
  let n_images := imagesList.length
  match loopCollect
      (fun i =>
        match Rc (i + 1), Tc (i + 1) with
        | some r, some t => some (r, t)
        | _, _ => none)
      (List.range n_images) with
  | none => none
  | some _ =>
    match loopCollect (fun i => w2cAt Rc Tc assemble (i + 1)) (List.range 20) with
    | none => none
    | some w2cs =>
      some
        { n_images := n_images
          images := imagesList
          W2C_list := w2cs
          pose_all := w2cs.map minv
          intrinsics_all := List.replicate n_images intrinsics }

/- ### Learning-rate schedule (exp_runner_psnerf.py lines 294-303) -/

/-- update_learning_rate lines 295-300: linear warm-up factor before
warm_up_end, cosine decay to the floor alpha afterwards.  iter_step is
the integer iteration counter; the remaining quantities are floats,
embedded as reals. -/
noncomputable def learning_factor (warm_up_end end_iter alpha : ℝ) (t : Nat) : ℝ :=
  if (t : ℝ) < warm_up_end then (t : ℝ) / warm_up_end
  else
    (Real.cos (Real.pi * (((t : ℝ) - warm_up_end) / (end_iter - warm_up_end))) + 1.0)
      * 0.5 * (1 - alpha) + alpha

/-- Lines 302-303: write learning_rate * learning_factor into the lr
entry of every optimizer parameter group. -/
noncomputable def update_learning_rate (learning_rate factor : ℝ)
    (groups : List ℝ) : List ℝ :=
  groups.map (fun _ => learning_rate * factor)

/- ### Pose interpolation (dataset_diligentMV.py lines 201-232)

scipy stores a Rotation internally as a unit quaternion, so rotations
are embedded as quaternions over the reals (Rot.from_matrix and
as_matrix are the exact mutually inverse changes of representation).
Slerp with key times [0, 1] evaluates at t as
r0 * from_rotvec(t * as_rotvec(r0.inv() * r1)). -/

/-- The Euclidean magnitude scipy computes: the square root of the sum
of squared components. -/
noncomputable def qAbs (q : ℍ[ℝ]) : ℝ := Real.sqrt (Quaternion.normSq q)

/-- Rotation.as_rotvec for a normalized quaternion: the axis im q
scaled to length twice the half-angle arccos(re q).  (The zero case
qAbs q.im = 0 yields the zero rotvec via division by zero.) -/
noncomputable def as_rotvec (q : ℍ[ℝ]) : ℍ[ℝ] :=
  (2 * Real.arccos q.re / qAbs q.im) • q.im

/-- Rotation.from_rotvec: the unit quaternion with scalar part
cos(angle/2) and vector part sin(angle/2) times the unit axis.  (For
the zero vector the vector part vanishes and the result is the identity
rotation 1, as in scipy where the scale has the continuous extension at
zero.) -/
noncomputable def from_rotvec (v : ℍ[ℝ]) : ℍ[ℝ] :=
  ((Real.cos (qAbs v / 2) : ℝ) : ℍ[ℝ]) + (Real.sin (qAbs v / 2) / qAbs v) • v

/-- Slerp([0, 1], [r0, r1]) evaluated at ratio. -/
noncomputable def slerpQ (q0 q1 : ℍ[ℝ]) (ratio : ℝ) : ℍ[ℝ] :=
  q0 * from_rotvec (ratio • as_rotvec (q0⁻¹ * q1))

/-- A rigid pose [R | t]: rotation as a quaternion, translation as a
pure-imaginary quaternion. -/
structure QPose where
  q : ℍ[ℝ]
  t : ℍ[ℝ]

/-- The action of the rotation q on a vector. -/
noncomputable def rotateBy (q v : ℍ[ℝ]) : ℍ[ℝ] := q * v * q⁻¹

/-- np.linalg.inv of the homogeneous pose [R | t]: rotation inverse and
translation -(R.inv() @ t). -/
noncomputable def poseInv (P : QPose) : QPose :=
  ⟨P.q⁻¹, -(rotateBy P.q⁻¹ P.t)⟩

/-- Lines 212-229 of gen_rays_between: invert both camera-to-world
poses (lines 215-216), slerp the inverted rotations (lines 217-222),
linearly interpolate the inverted translations (line 226), assemble and
invert back (line 227).  The result is the camera-to-world pose whose
rotation and translation lines 228-231 use. -/
noncomputable def gen_pose_between (P0 P1 : QPose) (ratio : ℝ) : QPose :=
  let pose_0 := poseInv P0
  let pose_1 := poseInv P1
  let rot := slerpQ pose_0.q pose_1.q ratio
  let trans := (1 - ratio) • pose_0.t + ratio • pose_1.t
  poseInv ⟨rot, trans⟩
/- ### Theorems -/

/-- C6: near_far_from_sphere returns near = t_mid - 1 and far = t_mid + 1
with t_mid = -b/(2a), a = |d|^2, b = 2(o.d), so far - near = 2 for every
ray regardless of origin and direction. -/
theorem C6_near_far_from_sphere (o d : V3) :
    (near_far_from_sphere o d).1 = -(2 * v3dot o d) / (2 * v3dot d d) - 1 ∧
    (near_far_from_sphere o d).2 = -(2 * v3dot o d) / (2 * v3dot d d) + 1 ∧
    (near_far_from_sphere o d).2 - (near_far_from_sphere o d).1 = 2 := by
  have hmid : (0.5 : ℚ) * (-(2 * v3dot o d)) / v3dot d d
      = -(2 * v3dot o d) / (2 * v3dot d d) := by
    rw [show (0.5 : ℚ) * (-(2 * v3dot o d)) = -(2 * v3dot o d) / 2 by ring,
      div_div, mul_comm]
  refine ⟨?_, ?_, ?_⟩ <;> simp only [near_far_from_sphere, hmid] <;> ring

/-- C3 counterexample: the claim asserts the per-image PSNR divisor in
evaluate carries no epsilon, i.e. equals mask.sum() * 3; on an all-zero
mask the code divisor is 3e-5, not 0. -/
theorem C3_counterexample :
    evaluate_psnr_divisor [0, 0] = 3 / 100000 ∧ (3 / 100000 : ℚ) ≠ 0 ∧
    evaluate_mask_sum [0, 0] ≠ ([(0 : ℚ), 0]).sum := by
  norm_num [evaluate_psnr_divisor, evaluate_mask_sum]

/-- C3 (amended): train and evaluate both guard their mask divisors with
the additive epsilon 1e-5, so both are positive on 0/1 masks; only
validate_image divides by mask_gt.sum() * 3 unguarded, which is zero
when no mask entry is valid. -/
theorem C3_divisor_guards (mask : List ℚ)
    (hm : ∀ m ∈ mask, m = 0 ∨ m = 1) :
    0 < train_mask_sum mask ∧ 0 < evaluate_psnr_divisor mask ∧
    train_mask_sum mask = mask.sum + 1 / 100000 ∧
    evaluate_psnr_divisor mask = (mask.sum + 1 / 100000) * 3 ∧
    validate_image_psnr_divisor mask = mask.sum * 3 ∧
    ((∀ m ∈ mask, m = 0) → validate_image_psnr_divisor mask = 0) := by
  have hsum : 0 ≤ mask.sum := by
    apply List.sum_nonneg
    intro m hmem
    rcases hm m hmem with h | h <;> simp [h]
  refine ⟨by unfold train_mask_sum; linarith, by unfold evaluate_psnr_divisor evaluate_mask_sum; linarith, rfl, rfl, rfl, ?_⟩
  intro hz
  have : mask.sum = 0 := List.sum_eq_zero hz
  simp [validate_image_psnr_divisor, this]

/-- C3 witness: the guards at the concrete mask [0, 1]. -/
theorem C3_divisor_guards_witness :
    0 < train_mask_sum [0, 1] ∧ 0 < evaluate_psnr_divisor [0, 1] ∧
    train_mask_sum [0, 1] = ([(0 : ℚ), 1]).sum + 1 / 100000 ∧
    evaluate_psnr_divisor [0, 1] = (([(0 : ℚ), 1]).sum + 1 / 100000) * 3 ∧
    validate_image_psnr_divisor [0, 1] = ([(0 : ℚ), 1]).sum * 3 ∧
    ((∀ m ∈ [(0 : ℚ), 1], m = 0) → validate_image_psnr_divisor [0, 1] = 0) :=
  C3_divisor_guards [0, 1] (by intro m hm; fin_cases hm <;> norm_num)

/-- C7: loading the checkpoint produced by save_checkpoint into any
runner state restores the four networks, the optimizer state and the
iteration counter exactly, and the file written at iteration n is named
ckpt_ + n zero-padded to six digits + .pth. -/
theorem C7_checkpoint_round_trip (r rfresh : RunnerState) :
    load_checkpoint rfresh (save_checkpoint r).1 = r ∧
    (save_checkpoint r).2 = "ckpt_" ++ zeroPad6 r.iter_step ++ ".pth" ∧
    ckptFileName 123 = "ckpt_000123.pth" :=
  ⟨rfl, rfl, by rfl⟩

/-- C1: contrary to the claim, a nonzero --checkpoint value without
--is_continue restores nothing: line 595 passes only four positional
arguments to Runner, leaving the checkpoint parameter False, so no scan
happens (first conjunct).  Had the flag been forwarded as a truthy
value, the constructor scan would select the last sorted entry with
iteration at most end_iter (second and fourth conjuncts); with
--is_continue the same scan does run (third conjunct). -/
theorem C1_checkpoint_flag_dropped :
    mainRunnerCheckpoint ⟨false, 7⟩ ["ckpt_000100.pth", "ckpt_000200.pth"] 300000
      = none ∧
    runnerInitCheckpoint ["ckpt_000100.pth", "ckpt_000200.pth"] 300000 false true
      = some "ckpt_000200.pth" ∧
    mainRunnerCheckpoint ⟨true, 0⟩ ["ckpt_000100.pth", "ckpt_000200.pth"] 300000
      = some "ckpt_000200.pth" ∧
    scanCheckpoints ["ckpt_000100.pth", "ckpt_400000.pth", "ckpt_000200.pth"] 300000
      = some "ckpt_000200.pth" :=
  ⟨rfl, by rfl, by rfl, by rfl⟩

/-- C8: the DiligentMV mask tensor is pure thresholded random noise:
it does not depend on the discovered mask-file list, every entry is 0 or
1, and each entry is 1 exactly when its own uniform draw exceeds 0.5. -/
theorem C8_masks_are_random_noise :
    (∀ files files2 draws, (dataset_masks_init files draws).masks
        = (dataset_masks_init files2 draws).masks) ∧
    (∀ files draws v, v ∈ (dataset_masks_init files draws).masks → v = 0 ∨ v = 1) ∧
    (∀ files draws, (dataset_masks_init files draws).masks
        = draws.map (fun r => if (0.5 : ℚ) < r then 1 else 0)) := by
  refine ⟨fun _ _ _ => rfl, ?_, fun _ _ => rfl⟩
  intro files draws v hv
  simp only [dataset_masks_init, generate_random_mask, List.mem_map] at hv
  obtain ⟨r, _, hvr⟩ := hv
  by_cases h : (0.5 : ℚ) < r
  · right; rw [← hvr]; simp [h]
  · left; rw [← hvr]; simp [h]

/-- C8 witness: mask entries at the concrete draws [1/4, 3/4] with two
different file lists. -/
theorem C8_masks_are_random_noise_witness :
    (dataset_masks_init ["b", "a"] [1/4, 3/4]).masks
      = (dataset_masks_init ["c"] [1/4, 3/4]).masks ∧
    ((1 : ℚ) = 0 ∨ (1 : ℚ) = 1) :=
  ⟨C8_masks_are_random_noise.1 ["b", "a"] ["c"] [1/4, 3/4],
   C8_masks_are_random_noise.2.1 ["b", "a"] [1/4, 3/4] 1
     (by norm_num [dataset_masks_init, generate_random_mask])⟩

/- ### C2: helper lemmas on the normal loss -/

lemma flattenV3_length (l : List V3) : (flattenV3 l).length = 3 * l.length := by
  induction l with
  | nil => rfl
  | cons v vs ih => simp [flattenV3] at ih ⊢; omega

lemma flatten_error_abs_sum :
    ∀ (sn tn : List V3) (nm : List ℚ), (∀ m ∈ nm, m = 0 ∨ m = 1) →
      ((flattenV3 (normal_error sn tn nm)).map (fun q => |q|)).sum
        = maskedAbsSum sn tn nm := by
  intro sn
  induction sn with
  | nil => intro tn nm _; simp [normal_error, maskedAbsSum, flattenV3]
  | cons a as ih =>
    intro tn nm hm
    cases tn with
    | nil => simp [normal_error, maskedAbsSum, flattenV3]
    | cons b bs =>
      cases nm with
      | nil => simp [normal_error, maskedAbsSum, flattenV3]
      | cons m ms =>
        have hms : ∀ x ∈ ms, x = 0 ∨ x = 1 := fun x hx => hm x (List.mem_cons_of_mem m hx)
        have htail := ih bs ms hms
        simp only [normal_error, maskedAbsSum, List.zip_cons_cons, List.zipWith_cons_cons,
          flattenV3, List.foldr_cons, List.map_cons, List.sum_cons] at htail ⊢
        rcases hm m (List.mem_cons_self m ms) with rfl | rfl
        · simpa [mul_zero, abs_zero] using htail
        · simp only [mul_one, one_mul]
          rw [htail]
          ring

lemma normal_error_length (sn tn : List V3) (nm : List ℚ) :
    (normal_error sn tn nm).length = min (min sn.length tn.length) nm.length := by
  simp [normal_error]

lemma maskedAbsSum_all_zero :
    ∀ (sn tn : List V3) (nm : List ℚ), (∀ m ∈ nm, m = 0) →
      maskedAbsSum sn tn nm = 0 := by
  intro sn
  induction sn with
  | nil => intro tn nm _; simp [maskedAbsSum]
  | cons a as ih =>
    intro tn nm hm
    cases tn with
    | nil => simp [maskedAbsSum]
    | cons b bs =>
      cases nm with
      | nil => simp [maskedAbsSum]
      | cons m ms =>
        have := ih bs ms (fun x hx => hm x (List.mem_cons_of_mem m hx))
        simp only [maskedAbsSum, List.zip_cons_cons, List.zipWith_cons_cons,
          List.sum_cons] at this ⊢
        rw [hm m (List.mem_cons_self m ms), this]
        ring

/-- C2 counterexample: on a 2-ray batch with mask [1, 0], the code loss
(F.l1_loss mean over all 6 entries of the masked error) is 1/6, while
the mean absolute error restricted to the selected entries is 1/3. -/
theorem C2_counterexample :
    normal_loss [⟨1, 0, 0⟩, ⟨5, 5, 5⟩] [⟨0, 0, 0⟩, ⟨0, 0, 0⟩] [1, 0] = 1 / 6 ∧
    restrictedNormalMAE [⟨1, 0, 0⟩, ⟨5, 5, 5⟩] [⟨0, 0, 0⟩, ⟨0, 0, 0⟩] [1, 0] = 1 / 3 ∧
    (1 / 6 : ℚ) ≠ 1 / 3 := by
  refine ⟨?_, ?_, by norm_num⟩
  · norm_num [normal_loss, normal_error, flattenV3, l1_loss_mean]
  · norm_num [restrictedNormalMAE]

/-- C2 (amended): the normal loss is the mean of the mask-weighted
absolute errors over all 3N batch entries (masked-out rays still count
in the denominator), rather than the mean over the selected entries
alone; with an all-zero normal mask, and likewise with an empty batch,
the loss is 0 rather than a failure. -/
theorem C2_normal_loss (sn tn : List V3) (nm : List ℚ) (n : ℕ)
    (hsn : sn.length = n) (htn : tn.length = n) (hnm : nm.length = n)
    (hm : ∀ m ∈ nm, m = 0 ∨ m = 1) :
    (0 < n → normal_loss sn tn nm = maskedAbsSum sn tn nm / (3 * n)) ∧
    ((∀ m ∈ nm, m = 0) → normal_loss sn tn nm = 0) := by
  have hlen : (normal_error sn tn nm).length = n := by
    rw [normal_error_length, hsn, htn, hnm]; omega
  constructor
  · intro hn
    simp only [normal_loss]
    rw [hlen, if_pos hn]
    simp only [l1_loss_mean]
    rw [flatten_error_abs_sum sn tn nm hm, flattenV3_length, hlen]
    push_cast
    ring_nf
  · intro hz
    simp only [normal_loss]
    by_cases hn : 0 < (normal_error sn tn nm).length
    · rw [if_pos hn]
      simp only [l1_loss_mean]
      rw [flatten_error_abs_sum sn tn nm hm, maskedAbsSum_all_zero sn tn nm hz, zero_div]
    · rw [if_neg hn]

/-- C2 witness: the amended statement at the counterexample batch. -/
theorem C2_normal_loss_witness :
    (0 < 2 → normal_loss [⟨1, 0, 0⟩, ⟨5, 5, 5⟩] [⟨0, 0, 0⟩, ⟨0, 0, 0⟩] [1, 0]
      = maskedAbsSum [⟨1, 0, 0⟩, ⟨5, 5, 5⟩] [⟨0, 0, 0⟩, ⟨0, 0, 0⟩] [1, 0] / (3 * 2)) ∧
    ((∀ m ∈ [(1 : ℚ), 0], m = 0) →
      normal_loss [⟨1, 0, 0⟩, ⟨5, 5, 5⟩] [⟨0, 0, 0⟩, ⟨0, 0, 0⟩] [1, 0] = 0) :=
  C2_normal_loss _ _ _ 2 rfl rfl rfl (by intro m hmem; fin_cases hmem <;> norm_num)

/- ### C10: helper lemmas on loopCollect -/

lemma loopCollect_length {γ δ : Type} (f : γ → Option δ) :
    ∀ (l : List γ) (ys : List δ), loopCollect f l = some ys → ys.length = l.length := by
  intro l
  induction l with
  | nil => intro ys h; simp [loopCollect] at h; simp [← h]
  | cons x xs ih =>
    intro ys h
    simp only [loopCollect] at h
    cases hfx : f x with
    | none => rw [hfx] at h; simp at h
    | some y =>
      rw [hfx] at h
      cases hrest : loopCollect f xs with
      | none => rw [hrest] at h; simp at h
      | some ys2 =>
        rw [hrest] at h
        simp only [Option.some.injEq] at h
        rw [← h]
        simp [ih ys2 hrest]

lemma loopCollect_none {γ δ : Type} (f : γ → Option δ) :
    ∀ (l : List γ) (x : γ), x ∈ l → f x = none → loopCollect f l = none := by
  intro l
  induction l with
  | nil => intro x hx; simp at hx
  | cons y ys ih =>
    intro x hx hfx
    rcases List.mem_cons.mp hx with rfl | hmem
    · simp [loopCollect, hfx]
    · simp only [loopCollect, ih x hmem hfx]
      cases f y <;> rfl

lemma loopCollect_getD {γ δ : Type} (f : γ → Option δ) :
    ∀ (l : List γ) (ys : List δ), loopCollect f l = some ys →
      ∀ (i : ℕ), i < l.length → ∀ (d : γ) (d2 : δ),
        f (l.getD i d) = some (ys.getD i d2) := by
  intro l
  induction l with
  | nil => intro ys _ i hi; simp at hi
  | cons x xs ih =>
    intro ys h i hi d d2
    simp only [loopCollect] at h
    cases hfx : f x with
    | none => rw [hfx] at h; simp at h
    | some y =>
      rw [hfx] at h
      cases hrest : loopCollect f xs with
      | none => rw [hrest] at h; simp at h
      | some ys2 =>
        rw [hrest] at h
        simp only [Option.some.injEq] at h
        subst h
        cases i with
        | zero => simpa using hfx
        | succ j =>
          simp only [List.getD_cons_succ]
          exact ih ys2 hrest j (by simpa using hi) d d2

/-- C10: a successfully constructed Dataset has exactly 20 poses in
W2C_list and pose_all, entry i built from calibration keys Rc_(i+1) and
Tc_(i+1) for i = 0..19 independent of the image count, while images and
intrinsics_all have n_images entries; pose index i aligns with image
index i for all views only when exactly 20 image files are discovered,
and construction fails whenever Rc_(i+1) or Tc_(i+1) is missing for
some i below n_images. -/
theorem C10_dataset_pose_invariants {R3 T3 M4 I4 : Type} (imagesList : List String)
    (Rc : Nat → Option R3) (Tc : Nat → Option T3)
    (assemble : R3 → T3 → M4) (minv : M4 → M4) (intrinsics : I4) :
    (∀ ds : DState R3 T3 M4 I4,
      dataset_init imagesList Rc Tc assemble minv intrinsics = some ds →
      ds.W2C_list.length = 20 ∧ ds.pose_all.length = 20 ∧
      ds.n_images = imagesList.length ∧
      ds.images.length = imagesList.length ∧
      ds.intrinsics_all.length = imagesList.length ∧
      ds.pose_all = ds.W2C_list.map minv ∧
      (∀ i : ℕ, i < 20 → ∀ d : M4,
        w2cAt Rc Tc assemble (i + 1) = some (ds.W2C_list.getD i d)) ∧
      (ds.pose_all.length = ds.images.length ↔ imagesList.length = 20)) ∧
    (∀ i : ℕ, i < imagesList.length → (Rc (i + 1) = none ∨ Tc (i + 1) = none) →
      dataset_init imagesList Rc Tc assemble minv intrinsics = none) := by
  constructor
  · intro ds h
    simp only [dataset_init] at h
    cases h1 : loopCollect
        (fun i =>
          match Rc (i + 1), Tc (i + 1) with
          | some r, some t => some (r, t)
          | _, _ => none)
        (List.range imagesList.length) with
    | none => rw [h1] at h; simp at h
    | some rt =>
      rw [h1] at h
      cases h2 : loopCollect (fun i => w2cAt Rc Tc assemble (i + 1)) (List.range 20) with
      | none => rw [h2] at h; simp at h
      | some w2cs =>
        rw [h2] at h
        simp only [Option.some.injEq] at h
        subst h
        have hlen : w2cs.length = 20 := by
          simpa using loopCollect_length _ _ _ h2
        refine ⟨hlen, by simpa using hlen, rfl, rfl, by simp, rfl, ?_, ?_⟩
        · intro i hi d
          have := loopCollect_getD _ _ _ h2 i (by simpa using hi) 0 d
          rwa [List.getD_eq_getElem _ _ (by simpa using hi), List.getElem_range] at this
        · simp [hlen, eq_comm]
  · intro i hi hmiss
    simp only [dataset_init]
    have hnone : (fun j =>
        match Rc (j + 1), Tc (j + 1) with
        | some r, some t => some ((r, t) : R3 × T3)
        | _, _ => none) i = none := by
      rcases hmiss with h | h
      · simp [h]
      · cases hr : Rc (i + 1) <;> simp [h, hr]
    rw [loopCollect_none _ (List.range imagesList.length) i (List.mem_range.mpr hi) hnone]

/-- Concrete calibration for the C10 witness: keys 1..20 present. -/
def RcW : Nat → Option Nat := fun i => if i ≤ 20 then some i else none

/-- Concrete translation calibration for the C10 witness. -/
def TcW : Nat → Option Nat := fun i => if i ≤ 20 then some i else none

/-- The dataset the C10 witness constructs from three image files. -/
def dsW : DState Nat Nat (Nat × Nat) Nat :=
  ⟨3, ["a", "b", "c"], (List.range 20).map (fun i => (i + 1, i + 1)),
   (List.range 20).map (fun i => (i + 1, i + 1)), List.replicate 3 0⟩

/-- C10 witness: the invariants at a concrete three-image dataset, and
a failing construction when key Rc_1 is absent. -/
theorem C10_dataset_pose_invariants_witness :
    dsW.W2C_list.length = 20 ∧ dsW.pose_all.length = 20 ∧
    dsW.intrinsics_all.length = 3 ∧
    w2cAt RcW TcW Prod.mk 1 = some (dsW.W2C_list.getD 0 (0, 0)) ∧
    (dsW.pose_all.length = dsW.images.length ↔ (3 : ℕ) = 20) ∧
    dataset_init ["a"] (fun _ => (none : Option Nat)) TcW Prod.mk id 0 = none := by
  have h := (C10_dataset_pose_invariants ["a", "b", "c"] RcW TcW Prod.mk id 0).1
    dsW (by rfl)
  have h2 := (C10_dataset_pose_invariants ["a"] (fun _ => (none : Option Nat))
    TcW Prod.mk id 0).2 0 (by norm_num) (Or.inl rfl)
  exact ⟨h.1, h.2.1, by simpa using h.2.2.2.2.1,
    h.2.2.2.2.2.2.1 0 (by norm_num) (0, 0),
    by simpa using h.2.2.2.2.2.2.2, h2⟩

/- ### C4: helper lemmas on the early-stopping run -/

lemma runChecksFrom_stopped (patience : Nat) (s : ESState) (h : s.early_stop = true) :
    ∀ (l : List (ℚ × ℚ)) (idx : Nat), runChecksFrom patience s idx l = s := by
  intro l
  induction l with
  | nil => intro idx; rfl
  | cons x xs ih =>
    intro idx
    obtain ⟨lx, px⟩ := x
    simp only [runChecksFrom, validationCheck, h, if_true]
    exact ih (idx + 1)

lemma runChecksFrom_append (patience : Nat) :
    ∀ (l1 l2 : List (ℚ × ℚ)) (s : ESState) (idx : Nat),
      runChecksFrom patience s idx (l1 ++ l2)
        = runChecksFrom patience (runChecksFrom patience s idx l1) (idx + l1.length) l2 := by
  intro l1
  induction l1 with
  | nil => intro l2 s idx; simp [runChecksFrom]
  | cons x xs ih =>
    intro l2 s idx
    obtain ⟨lx, px⟩ := x
    have hc : ((lx, px) :: xs) ++ l2 = (lx, px) :: (xs ++ l2) := rfl
    rw [hc, runChecksFrom, runChecksFrom,
      ih l2 (validationCheck patience s (idx + 1) lx px) (idx + 1),
      List.length_cons, show idx + 1 + xs.length = idx + (xs.length + 1) by omega]

lemma runImproving (patience : Nat) :
    ∀ (l : List (ℚ × ℚ)) (hne : l ≠ []) (idx bi : Nat) (b : ℚ),
      List.Chain' (fun p q : ℚ × ℚ => q.1 < p.1) l →
      (l.head hne).1 < b →
      runChecksFrom patience ⟨some b, bi, 0, false⟩ idx l
        = ⟨some (l.getLast hne).1, idx + l.length, 0, false⟩ := by
  intro l
  induction l with
  | nil => intro hne; exact absurd rfl hne
  | cons x xs ih =>
    intro hne idx bi b hchain hhead
    obtain ⟨lx, px⟩ := x
    simp only [List.head_cons] at hhead
    have hstep : validationCheck patience ⟨some b, bi, 0, false⟩ (idx + 1) lx px
        = ⟨some lx, idx + 1, 0, false⟩ := by
      simp [validationCheck, hhead]
    cases xs with
    | nil =>
      rw [runChecksFrom, hstep, runChecksFrom]
      simp
    | cons y ys =>
      have hchain2 := List.chain'_cons.mp hchain
      rw [runChecksFrom, hstep]
      have step := ih (by simp) (idx + 1) (idx + 1) lx hchain2.2
        (by simpa using hchain2.1)
      rw [step]
      have hlast : (((lx, px) :: y :: ys).getLast hne) = ((y :: ys).getLast (by simp)) :=
        List.getLast_cons (by simp)
      rw [hlast]
      simp only [List.length_cons]
      have h3 : idx + 1 + (ys.length + 1) = idx + (ys.length + 1 + 1) := by omega
      rw [h3]

lemma runImprovingInit (patience : Nat) (l : List (ℚ × ℚ)) (hne : l ≠ [])
    (hchain : List.Chain' (fun p q : ℚ × ℚ => q.1 < p.1) l) (idx : Nat) :
    runChecksFrom patience esInit idx l
      = ⟨some (l.getLast hne).1, idx + l.length, 0, false⟩ := by
  cases l with
  | nil => exact absurd rfl hne
  | cons x xs =>
    obtain ⟨lx, px⟩ := x
    have hstep : validationCheck patience esInit (idx + 1) lx px
        = ⟨some lx, idx + 1, 0, false⟩ := by
      simp [validationCheck, esInit]
    cases xs with
    | nil =>
      rw [runChecksFrom, hstep, runChecksFrom]
      simp
    | cons y ys =>
      have hchain2 := List.chain'_cons.mp hchain
      rw [runChecksFrom, hstep]
      rw [runImproving patience (y :: ys) (by simp) (idx + 1) (idx + 1) lx hchain2.2
        (by simpa using hchain2.1)]
      have hlast : (((lx, px) :: y :: ys).getLast hne) = ((y :: ys).getLast (by simp)) :=
        List.getLast_cons (by simp)
      rw [hlast]
      simp only [List.length_cons]
      have h3 : idx + 1 + (ys.length + 1) = idx + (ys.length + 1 + 1) := by omega
      rw [h3]

lemma runPlateauNoStop (patience : Nat) :
    ∀ (l : List (ℚ × ℚ)) (b : ℚ) (bi idx c : Nat),
      (∀ p ∈ l, b ≤ p.1) → c + l.length < patience →
      runChecksFrom patience ⟨some b, bi, c, false⟩ idx l
        = ⟨some b, bi, c + l.length, false⟩ := by
  intro l
  induction l with
  | nil => intro b bi idx c _ _; simp [runChecksFrom]
  | cons x xs ih =>
    intro b bi idx c hb hlt
    obtain ⟨lx, px⟩ := x
    have hx : b ≤ lx := by simpa using hb (lx, px) (List.mem_cons_self _ _)
    have hstep : validationCheck patience ⟨some b, bi, c, false⟩ (idx + 1) lx px
        = ⟨some b, bi, c + 1, false⟩ := by
      simp only [validationCheck, if_neg (Bool.false_ne_true)]
      rw [if_neg (not_lt.mpr hx)]
      simp only [List.length_cons] at hlt
      simp [decide_eq_false (by omega : ¬ patience ≤ c + 1)]
    rw [runChecksFrom, hstep,
      ih b bi (idx + 1) (c + 1) (fun p hp => hb p (List.mem_cons_of_mem _ hp))
        (by simp only [List.length_cons] at hlt; omega)]
    simp only [List.length_cons]
    have h3 : c + 1 + xs.length = c + (xs.length + 1) := by omega
    rw [h3]

lemma runPlateauStop (patience : Nat) :
    ∀ (l : List (ℚ × ℚ)) (b : ℚ) (bi idx c : Nat),
      (∀ p ∈ l, b ≤ p.1) → c < patience → c + l.length = patience →
      runChecksFrom patience ⟨some b, bi, c, false⟩ idx l
        = ⟨some b, bi, patience, true⟩ := by
  intro l
  induction l with
  | nil => intro b bi idx c _ hc hlen; simp at hlen; omega
  | cons x xs ih =>
    intro b bi idx c hb hc hlen
    obtain ⟨lx, px⟩ := x
    have hx : b ≤ lx := by simpa using hb (lx, px) (List.mem_cons_self _ _)
    simp only [List.length_cons] at hlen
    by_cases hp : patience ≤ c + 1
    · have hcp : c + 1 = patience := by omega
      have hxs : xs.length = 0 := by omega
      have hstep : validationCheck patience ⟨some b, bi, c, false⟩ (idx + 1) lx px
          = ⟨some b, bi, c + 1, true⟩ := by
        simp only [validationCheck, if_neg (Bool.false_ne_true)]
        rw [if_neg (not_lt.mpr hx)]
        simp [decide_eq_true hp]
      rw [runChecksFrom, hstep, runChecksFrom_stopped patience _ rfl, hcp]
    · have hstep : validationCheck patience ⟨some b, bi, c, false⟩ (idx + 1) lx px
          = ⟨some b, bi, c + 1, false⟩ := by
        simp only [validationCheck, if_neg (Bool.false_ne_true)]
        rw [if_neg (not_lt.mpr hx)]
        simp [decide_eq_false hp]
      rw [runChecksFrom, hstep,
        ih b bi (idx + 1) (c + 1) (fun p hmem => hb p (List.mem_cons_of_mem _ hmem))
          (by omega) (by omega)]

lemma runChecksFrom_loss_only (patience : Nat) :
    ∀ (l1 l2 : List (ℚ × ℚ)) (s : ESState) (idx : Nat),
      l1.map Prod.fst = l2.map Prod.fst →
      runChecksFrom patience s idx l1 = runChecksFrom patience s idx l2 := by
  intro l1
  induction l1 with
  | nil =>
    intro l2 s idx h
    have : l2 = [] := by simpa using (List.map_eq_nil_iff.mp h.symm)
    rw [this]
  | cons x xs ih =>
    intro l2 s idx h
    cases l2 with
    | nil => simp at h
    | cons y ys =>
      obtain ⟨lx, px⟩ := x
      obtain ⟨ly, py⟩ := y
      simp only [List.map_cons, List.cons.injEq] at h
      rw [runChecksFrom, runChecksFrom, ih ys _ (idx + 1) h.2]
      have hl : lx = ly := h.1
      rw [hl]
      rfl

/-- C4: over a validation-check sequence whose loss strictly improves
for k checks and then never improves again, the loop flags early stop
exactly patience checks after the last improvement (and not one check
earlier), the recorded best iteration is the k-th check and the
recorded best value is the k-th loss; the decision reads only the loss
component of each check, never the psnr logged beside it. -/
theorem C4_early_stopping (patience k : Nat) (a b : List (ℚ × ℚ))
    (hk : 1 ≤ k) (hp : 1 ≤ patience)
    (ha : a.length = k) (hb : b.length = patience)
    (hne : a ≠ [])
    (hchain : List.Chain' (fun p q : ℚ × ℚ => q.1 < p.1) a)
    (hplateau : ∀ p ∈ b, (a.getLast hne).1 ≤ p.1) :
    runChecks patience (a ++ b) = ⟨some (a.getLast hne).1, k, patience, true⟩ ∧
    (runChecks patience ((a ++ b).take (k + patience - 1))).early_stop = false ∧
    (∀ l1 l2 : List (ℚ × ℚ), l1.map Prod.fst = l2.map Prod.fst →
      runChecks patience l1 = runChecks patience l2) := by
  have himp : runChecksFrom patience esInit 0 a
      = ⟨some (a.getLast hne).1, k, 0, false⟩ := by
    rw [runImprovingInit patience a hne hchain 0, Nat.zero_add, ha]
  refine ⟨?_, ?_, fun l1 l2 h => runChecksFrom_loss_only patience l1 l2 esInit 0 h⟩
  · show runChecksFrom patience esInit 0 (a ++ b) = _
    rw [runChecksFrom_append, himp,
      runPlateauStop patience b ((a.getLast hne).1) k (0 + a.length) 0 hplateau
        (by omega) (by omega)]
  · have htake : (a ++ b).take (k + patience - 1) = a ++ b.take (patience - 1) := by
      rw [show k + patience - 1 = a.length + (patience - 1) by omega]
      exact List.take_append (patience - 1)
    show (runChecksFrom patience esInit 0 ((a ++ b).take (k + patience - 1))).early_stop
      = false
    rw [htake, runChecksFrom_append, himp,
      runPlateauNoStop patience (b.take (patience - 1)) ((a.getLast hne).1) k
        (0 + a.length) 0
        (fun p hmem => hplateau p (List.mem_of_mem_take hmem))
        (by rw [List.length_take]; omega)]

/-- C4 witness: one improving check then a plateau of ten equal losses
with patience 10: the run stops at check 11 with best iteration 1, the
10-check prefix has not stopped, and the psnr column does not affect
the outcome. -/
theorem C4_early_stopping_witness :
    runChecks 10 ([((1 : ℚ), (99 : ℚ))] ++ List.replicate 10 ((1 : ℚ), (42 : ℚ)))
      = ⟨some 1, 1, 10, true⟩ ∧
    (runChecks 10
      (([((1 : ℚ), (99 : ℚ))] ++ List.replicate 10 ((1 : ℚ), (42 : ℚ))).take 10)).early_stop
      = false ∧
    runChecks 10 [((3 : ℚ), (0 : ℚ))] = runChecks 10 [((3 : ℚ), (7 : ℚ))] := by
  have h := C4_early_stopping 10 1 [((1 : ℚ), (99 : ℚ))]
    (List.replicate 10 ((1 : ℚ), (42 : ℚ)))
    le_rfl (by norm_num) rfl (by simp) (by simp) (by simp)
    (fun p hmem => by rw [List.eq_of_mem_replicate hmem]; simp)
  exact ⟨h.1, h.2.1, h.2.2 [((3 : ℚ), (0 : ℚ))] [((3 : ℚ), (7 : ℚ))] (by simp)⟩

/-- C5: with warm_up_end = 100, end_iter = 1100, learning_rate_alpha =
1/20 = 0.05, the factor is t/100 before iteration 100 (in particular
1/2 at t = 50), follows the cosine-decay formula from t = 100 on (in
particular 1 at t = 100 and 1/20 at t = 1100), and the resulting rate
learning_rate * factor is written identically into every optimizer
parameter group. -/
theorem C5_learning_rate_schedule :
    (∀ t : Nat, (t : ℝ) < 100 → learning_factor 100 1100 (1/20) t = (t : ℝ) / 100) ∧
    learning_factor 100 1100 (1/20) 50 = 1/2 ∧
    learning_factor 100 1100 (1/20) 100 = 1 ∧
    learning_factor 100 1100 (1/20) 1100 = 1/20 ∧
    (∀ t : Nat, ¬ ((t : ℝ) < 100) →
      learning_factor 100 1100 (1/20) t
        = (Real.cos (Real.pi * (((t : ℝ) - 100) / (1100 - 100))) + 1) * 0.5
            * (1 - 1/20) + 1/20) ∧
    (∀ (lr f : ℝ) (groups : List ℝ),
      (∀ g ∈ update_learning_rate lr f groups, g = lr * f) ∧
      (update_learning_rate lr f groups).length = groups.length) := by
  refine ⟨?_, ?_, ?_, ?_, ?_, ?_⟩
  · intro t ht
    rw [learning_factor, if_pos ht]
  · rw [learning_factor, if_pos (by norm_num)]
    norm_num
  · rw [learning_factor, if_neg (by norm_num)]
    norm_num [Real.cos_zero]
  · rw [learning_factor, if_neg (by norm_num)]
    norm_num [Real.cos_pi]
  · intro t ht
    rw [learning_factor, if_neg ht]
    norm_num
  · intro lr f groups
    constructor
    · intro g hg
      simp only [update_learning_rate, List.mem_map] at hg
      obtain ⟨_, _, hgg⟩ := hg
      exact hgg.symm
    · simp [update_learning_rate]

/-- C5 witness: the warm-up branch at t = 50 and the group update at a
concrete one-group optimizer. -/
theorem C5_learning_rate_schedule_witness :
    learning_factor 100 1100 (1/20) 50 = (50 : Nat) / 100 ∧
    (2 : ℝ) * 3 = 2 * 3 ∧
    (update_learning_rate 2 3 [7]).length = [(7 : ℝ)].length :=
  ⟨C5_learning_rate_schedule.1 50 (by norm_num),
   (C5_learning_rate_schedule.2.2.2.2.2 2 3 [7]).1 (2 * 3)
     (by simp [update_learning_rate]),
   (C5_learning_rate_schedule.2.2.2.2.2 2 3 [7]).2⟩

/- ### C9: helper lemmas on quaternion slerp and pose inversion -/

lemma qAbs_smul (c : ℝ) (q : ℍ[ℝ]) (hc : 0 ≤ c) : qAbs (c • q) = c * qAbs q := by
  unfold qAbs
  rw [Quaternion.normSq_smul, Real.sqrt_mul (sq_nonneg c), Real.sqrt_sq hc]

lemma from_rotvec_zero : from_rotvec 0 = 1 := by
  unfold from_rotvec qAbs
  simp

lemma slerpQ_zero (q0 q1 : ℍ[ℝ]) : slerpQ q0 q1 0 = q0 := by
  unfold slerpQ
  rw [zero_smul, from_rotvec_zero, mul_one]

lemma rotateBy_cancel (q v : ℍ[ℝ]) (h : q ≠ 0) :
    rotateBy q (rotateBy q⁻¹ v) = v := by
  unfold rotateBy
  rw [inv_inv]
  have hq : q * q⁻¹ = 1 := mul_inv_cancel₀ h
  calc q * (q⁻¹ * v * q) * q⁻¹
      = q * q⁻¹ * v * (q * q⁻¹) := by noncomm_ring
    _ = v := by rw [hq, one_mul, mul_one]

lemma rotateBy_neg (q v : ℍ[ℝ]) : rotateBy q (-v) = -(rotateBy q v) := by
  unfold rotateBy
  rw [mul_neg, neg_mul]

lemma poseInv_involutive (P : QPose) (h : P.q ≠ 0) : poseInv (poseInv P) = P := by
  obtain ⟨q, t⟩ := P
  unfold poseInv
  simp only
  rw [inv_inv, rotateBy_neg, neg_neg, rotateBy_cancel q t h]

lemma from_rotvec_as_rotvec (q : ℍ[ℝ]) (hq : Quaternion.normSq q = 1)
    (him : q.im ≠ 0) : from_rotvec (as_rotvec q) = q := by
  have himSq : Quaternion.normSq q.im ≠ 0 :=
    fun h => him (Quaternion.normSq_eq_zero.mp h)
  have himSqpos : 0 < Quaternion.normSq q.im :=
    lt_of_le_of_ne Quaternion.normSq_nonneg (Ne.symm himSq)
  have habspos : 0 < qAbs q.im := Real.sqrt_pos.mpr himSqpos
  have hsplit : q.re ^ 2 + Quaternion.normSq q.im = 1 := by
    have h1 := Quaternion.normSq_def' q
    have h2 : Quaternion.normSq q.im = q.imI ^ 2 + q.imJ ^ 2 + q.imK ^ 2 := by
      rw [Quaternion.normSq_def']
      simp
    rw [h2]
    rw [h1] at hq
    linarith
  have hre1 : q.re < 1 := by nlinarith [himSqpos]
  have hrem1 : -1 ≤ q.re := by nlinarith [himSqpos]
  have hrele : q.re ≤ 1 := le_of_lt hre1
  have harcpos : 0 < Real.arccos q.re := Real.arccos_pos.mpr hre1
  have hcoefpos : 0 < 2 * Real.arccos q.re / qAbs q.im := by positivity
  have habs_rotvec : qAbs (as_rotvec q) = 2 * Real.arccos q.re := by
    unfold as_rotvec
    rw [qAbs_smul _ _ (le_of_lt hcoefpos), div_mul_cancel₀ _ (ne_of_gt habspos)]
  have hsin : Real.sin (Real.arccos q.re) = qAbs q.im := by
    rw [Real.sin_arccos]
    unfold qAbs
    congr 1
    nlinarith [hsplit]
  unfold from_rotvec
  rw [habs_rotvec]
  have h2a : 2 * Real.arccos q.re / 2 = Real.arccos q.re := by ring
  rw [h2a, Real.cos_arccos hrem1 hrele]
  unfold as_rotvec
  rw [smul_smul]
  have hθne : (2 : ℝ) * Real.arccos q.re ≠ 0 := by positivity
  have himne : qAbs q.im ≠ 0 := ne_of_gt habspos
  have hone : Real.sin (Real.arccos q.re) / (2 * Real.arccos q.re)
      * (2 * Real.arccos q.re / qAbs q.im) = 1 := by
    rw [hsin]
    field_simp
  rw [hone, one_smul, Quaternion.re_add_im]

lemma slerpQ_one (q0 q1 : ℍ[ℝ]) (h0 : q0 ≠ 0)
    (hn : Quaternion.normSq (q0⁻¹ * q1) = 1) (him : (q0⁻¹ * q1).im ≠ 0) :
    slerpQ q0 q1 1 = q1 := by
  unfold slerpQ
  rw [one_smul, from_rotvec_as_rotvec _ hn him, ← mul_assoc,
    mul_inv_cancel₀ h0, one_mul]

/-- C9: the pose gen_rays_between assembles reproduces the endpoint
camera-to-world poses: at ratio 0 it equals pose idx_0 and at ratio 1
it equals pose idx_1 (rotation and translation), exactly in real
arithmetic.  The ratio-1 case assumes the relative rotation quaternion
is normalized (scipy Rotations are stored normalized) and is not the
identity rotation, and both poses have invertible rotations. -/
theorem C9_pose_interpolation_endpoints (P0 P1 : QPose)
    (h0 : P0.q ≠ 0) (h1 : P1.q ≠ 0) :
    gen_pose_between P0 P1 0 = P0 ∧
    (Quaternion.normSq ((poseInv P0).q⁻¹ * (poseInv P1).q) = 1 →
      ((poseInv P0).q⁻¹ * (poseInv P1).q).im ≠ 0 →
      gen_pose_between P0 P1 1 = P1) := by
  constructor
  · have e0 : gen_pose_between P0 P1 0 = poseInv (poseInv P0) := by
      simp only [gen_pose_between]
      rw [slerpQ_zero]
      norm_num
    rw [e0]
    exact poseInv_involutive P0 h0
  · intro hn him
    have h0p : (poseInv P0).q ≠ 0 := inv_ne_zero h0
    have e1 : gen_pose_between P0 P1 1 = poseInv (poseInv P1) := by
      simp only [gen_pose_between]
      rw [slerpQ_one _ _ h0p hn him]
      norm_num
    rw [e1]
    exact poseInv_involutive P1 h1

/-- The rotation-by-pi-about-k quaternion used by the C9 witness. -/
noncomputable def qkW : ℍ[ℝ] := ⟨0, 0, 0, 1⟩

lemma qkW_normSq : Quaternion.normSq qkW = 1 := by
  rw [Quaternion.normSq_def']
  norm_num [qkW]

lemma qkW_ne_zero : qkW ≠ 0 := by
  intro h
  have h2 := congrArg Quaternion.imK h
  simp [qkW] at h2

/-- C9 witness: the identity pose and the half-turn-about-k pose are
reproduced exactly at the two endpoints. -/
theorem C9_pose_interpolation_endpoints_witness :
    gen_pose_between ⟨1, 0⟩ ⟨qkW, 0⟩ 0 = ⟨1, 0⟩ ∧
    gen_pose_between ⟨1, 0⟩ ⟨qkW, 0⟩ 1 = ⟨qkW, 0⟩ := by
  have h := C9_pose_interpolation_endpoints ⟨1, 0⟩ ⟨qkW, 0⟩ one_ne_zero qkW_ne_zero
  have hrel : ((poseInv ⟨1, 0⟩).q⁻¹ * (poseInv ⟨qkW, 0⟩).q) = qkW⁻¹ := by
    show ((1 : ℍ[ℝ])⁻¹⁻¹ * qkW⁻¹) = qkW⁻¹
    rw [inv_one, inv_one, one_mul]
  have hn : Quaternion.normSq ((poseInv ⟨1, 0⟩).q⁻¹ * (poseInv ⟨qkW, 0⟩).q) = 1 := by
    rw [hrel, Quaternion.normSq_inv, qkW_normSq, inv_one]
  have him : ((poseInv ⟨1, 0⟩).q⁻¹ * (poseInv ⟨qkW, 0⟩).q).im ≠ 0 := by
    rw [hrel]
    intro hzero
    have h2 := congrArg Quaternion.imK hzero
    rw [Quaternion.im_imK] at h2
    have h3 : (qkW⁻¹).imK = -1 := by
      rw [Quaternion.instInv_inv, qkW_normSq, inv_one, one_smul]
      simp [qkW]
    rw [h3] at h2
    norm_num at h2
  exact ⟨h.1, h.2 hn him⟩
